import Mathlib

/-!
Shallow embedding of the hex-grid movement model
(`code/classes/hex.py`, `code/classes/run.py`, `code/classes/map.py`,
`code/visualisation/grid.py`).

Hexes are the doubled-coordinate hexes of the `hexutil` library
(`Hex(x, y)` with the six neighbour offsets
`(2,0), (1,1), (-1,1), (-2,0), (-1,-1), (1,-1)`); equality of the
Python `Hex_custom` objects is the namedtuple's coordinate equality,
so a hex is modelled as its integer coordinate pair and the attached
land cover lives in the map's `tiles` association instead.
-/

namespace HexModel

/-- A `hexutil.Hex`: a doubled-coordinate pair of integers. -/
structure Hex where
  x : Int
  y : Int
deriving DecidableEq, Repr

/-- `hexutil.Hex.neighbours`: the six lattice neighbours, in the
library's direction order. -/
def Hex.neighbours (h : Hex) : List Hex :=
  [⟨h.x + 2, h.y⟩, ⟨h.x + 1, h.y + 1⟩, ⟨h.x - 1, h.y + 1⟩,
   ⟨h.x - 2, h.y⟩, ⟨h.x - 1, h.y - 1⟩, ⟨h.x + 1, h.y - 1⟩]

/-- `code/classes/run.py`, class `Run`: an ordered sequence of hexes
with a numeric id and a name. -/
structure Run where
  run_id : Int := 0
  name : String := ""
  hexagons : List Hex := []
deriving DecidableEq, Repr

/-- `Run.add_hexagon`: appends when the run is empty or the hex
neighbours the last element, prepends when it neighbours the first
element, otherwise refuses.  Returns the new state and the Python
return value. -/
def Run.add_hexagon (r : Run) (hexagon : Hex) : Run × Bool :=
  match h : r.hexagons with
  | [] => ({ r with hexagons := [hexagon] }, true)
  | first :: rest =>
    let last_hex := (first :: rest).getLast (by simp)
    if hexagon ∈ last_hex.neighbours then
      ({ r with hexagons := (first :: rest) ++ [hexagon] }, true)
    else if hexagon ∈ first.neighbours then
      ({ r with hexagons := hexagon :: first :: rest }, true)
    else
      (r, false)

/-- `Run.remove_hexagon`: removes the hex when it is the last or the
first element of a run of more than one hex. -/
def Run.remove_hexagon (r : Run) (hexagon : Hex) : Run × Bool :=
  if r.hexagons.length > 1 then
    if r.hexagons.getLast? = some hexagon then
      ({ r with hexagons := r.hexagons.dropLast }, true)
    else if r.hexagons.head? = some hexagon then
      ({ r with hexagons := r.hexagons.tail }, true)
    else
      (r, false)
  else
    (r, false)

/-- One interactive mutation of a run (`Run.add_hexagon` or
`Run.remove_hexagon`). -/
inductive RunOp where
  | add (h : Hex)
  | remove (h : Hex)
deriving DecidableEq, Repr

/-- Applies a sequence of `add_hexagon`/`remove_hexagon` calls to a
run, ignoring the returned booleans. -/
def Run.applyOps (r : Run) (ops : List RunOp) : Run :=
  ops.foldl (fun s op =>
    match op with
    | RunOp.add h => (s.add_hexagon h).1
    | RunOp.remove h => (s.remove_hexagon h).1) r

/-- Lattice adjacency as the source tests it:
`hexagon in last_hex.neighbours()`. -/
def Hex.adj (a b : Hex) : Prop := b ∈ a.neighbours

instance (a b : Hex) : Decidable (Hex.adj a b) := by
  unfold Hex.adj; infer_instance

/-!
`code/classes/map.py`, class `Map`.  The land covers are the source's
integer codes: 1 grass, 2 bushes, 3 water, 4 path, 5 blank.  `tiles`
is the dict from doubled coordinates to the `Hex_custom`'s land
cover; `tree_hexagons` is the dict from ribbon identifier to hex,
kept as an insertion-ordered association list like a Python dict.
-/

/-- The queryable state of `Map`: the `tiles` land-cover assignment,
the grid extents and the waypoint index `tree_hexagons`. -/
structure Map where
  tiles : List ((Int × Int) × Nat) := []
  num_hor : Int := 0
  num_ver : Int := 0
  tree_hexagons : List (String × Hex) := []
deriving DecidableEq, Repr

/-- `Map.get_tile`: the land cover of the hexagon, defaulting to 5
(blank) when the coordinate is absent from `tiles`. -/
def Map.get_tile (m : Map) (hexagon : Hex) : Nat :=
  match m.tiles.lookup (hexagon.x, hexagon.y) with
  | none => 5
  | some land_cover => land_cover

/-- `Map.is_passable`: false for water (3) and blank (5), true
otherwise. -/
def Map.is_passable (m : Map) (hexagon : Hex) : Bool :=
  let land_cover := m.get_tile hexagon
  if land_cover = 3 ∨ land_cover = 5 then false else true

/-- `Map.cost`: 1.5 for grass, 10 for bushes, 1 for path; the Python
function falls off its end (returns `None`) for every other land
cover, modelled as `none`. -/
def Map.cost (m : Map) (hexagon : Hex) : Option ℚ :=
  let land_cover := m.get_tile hexagon
  if land_cover = 1 then some (3 / 2)
  else if land_cover = 2 then some 10
  else if land_cover = 4 then some 1
  else none

/-- `Map.is_transparent`: false for a blank tile; when the coordinate
passes the source's edge test (`x == 0 or y == 0 or
x == num_hor * 2 or y == num_ver`), additionally false when any
neighbour's tile is blank. -/
def Map.is_transparent (m : Map) (hexagon : Hex) : Bool :=
  if m.get_tile hexagon = 5 then false
  else if hexagon.x = 0 ∨ hexagon.y = 0 ∨ hexagon.x = m.num_hor * 2
      ∨ hexagon.y = m.num_ver then
    if hexagon.neighbours.any (fun n => m.get_tile n = 5) then false
    else true
  else true

/-- `Map.get_tree_number`: `False` when no ribbon resolves to the
hexagon, otherwise the first identifier in the index whose value is
the hexagon (`[k for k, v in tree_hexes if v == hexagon][0]`). -/
def Map.get_tree_number (m : Map) (hexagon : Hex) : Option String :=
  match m.tree_hexagons.find? (fun p => p.2 = hexagon) with
  | none => none
  | some p => some p.1

/-!
Geodesic conversion and ribbon loading (`map.py` lines 210–272).
Latitude/longitude pairs are modelled as exact rationals; the decimal
corner constants of `Map.__init__` are exact in ℚ.  The geodesic
distance (`haversine`) is transcendental, so the statements that need
it take the distance function as a parameter `dist`; likewise the
rectangular geodesic→grid inversion of `load_ribbons` (lines 238–252),
which only feeds the candidate coordinate, is a parameter `resolveXY`.
-/

/-- The fixed top-left corner coordinate of `Map.__init__`. -/
def top_left_coords : ℚ × ℚ := (52.36226580, 4.94751107)

/-- The fixed top-right corner coordinate of `Map.__init__`. -/
def top_right_coords : ℚ × ℚ := (52.36226580, 4.95285498)

/-- The fixed bottom-left corner coordinate of `Map.__init__`. -/
def bottom_left_coords : ℚ × ℚ := (52.35821084, 4.94751107)

/-- `Map.get_gps_coords`: the GPS coordinates of the center of a
hexagon, by linear interpolation from the corners. -/
def Map.get_gps_coords (m : Map) (hex : Hex) : ℚ × ℚ :=
  let x_difference := top_right_coords.2 - top_left_coords.2
  let x_difference_hex := x_difference / (m.num_hor : ℚ)
  let x := top_left_coords.2 + (hex.x : ℚ) / 2 * x_difference_hex
  let y_difference := top_left_coords.1 - bottom_left_coords.1
  let y_difference_hex := y_difference / (m.num_ver : ℚ)
  let y := top_left_coords.1 - (hex.y : ℚ) * y_difference_hex
  (y, x)

/-- The ribbon-refinement loop of `Map.load_ribbons` (lines 259–269)
exactly as coded: the distance from the raw waypoint to the candidate
hex's center is compared against the distance from the raw waypoint to
the pair `(neighbour.x, y_model)` — the neighbour's grid indices, not
its center — and the hex is reassigned to the first neighbour whose
comparison succeeds. -/
def refine_ribbon (dist : ℚ × ℚ → ℚ × ℚ → ℚ) (m : Map) (raw : ℚ × ℚ)
    (y_model : Int) (hex : Hex) : Hex :=
  let distance_to_center := dist raw (m.get_gps_coords hex)
  match hex.neighbours.find?
      (fun n => distance_to_center > dist raw ((n.x : ℚ), (y_model : ℚ))) with
  | some neighbour => neighbour
  | none => hex

/-- Follows the spec's words (§4.8): compare the geodesic distance
from the raw waypoint coordinate to the candidate hex's true center
versus each of the candidate's neighbours' centers, and reassign to
the first neighbour found strictly closer than the candidate. -/
def spec_refine_ribbon (dist : ℚ × ℚ → ℚ × ℚ → ℚ) (m : Map) (raw : ℚ × ℚ)
    (hex : Hex) : Hex :=
  let distance_to_center := dist raw (m.get_gps_coords hex)
  match hex.neighbours.find?
      (fun n => distance_to_center > dist raw (m.get_gps_coords n)) with
  | some neighbour => neighbour
  | none => hex

/-- One waypoint record of the ribbon file: latitude, longitude,
identifier (`values[0], values[1], values[2]`). -/
structure Ribbon where
  y_gps : ℚ
  x_gps : ℚ
  ident : String
deriving DecidableEq, Repr

/-- Python dict assignment `d[k] = v`: overwrites in place when the
key exists, otherwise appends. -/
def dictInsert (l : List (String × Hex)) (k : String) (v : Hex) :
    List (String × Hex) :=
  if l.any (fun p => p.1 = k) then
    l.map (fun p => if p.1 = k then (k, v) else p)
  else
    l ++ [(k, v)]

/-- One iteration of the `load_ribbons` record loop: resolve the
candidate grid coordinate (`resolveXY` abstracts lines 238–252), fetch
the hex from `tiles` — `none` models the record resolving outside the
map, where the Python code raises on `hex.x` of `None` — refine, and
insert into the index. -/
def load_ribbons_step (dist : ℚ × ℚ → ℚ × ℚ → ℚ)
    (resolveXY : ℚ × ℚ → Int × Int) (m : Map)
    (tree : List (String × Hex)) (r : Ribbon) :
    Option (List (String × Hex)) :=
  let xy := resolveXY (r.y_gps, r.x_gps)
  match m.tiles.lookup xy with
  | none => none
  | some _ =>
    let hex : Hex := ⟨xy.1, xy.2⟩
    let hex' := refine_ribbon dist m (r.y_gps, r.x_gps) xy.2 hex
    some (dictInsert tree r.ident hex')

/-- The record loop of `load_ribbons`, threading the index state; on a
failing record it stops and returns the state reached at that moment
(`false`), as the raised exception would leave it. -/
def load_ribbons_go (dist : ℚ × ℚ → ℚ × ℚ → ℚ)
    (resolveXY : ℚ × ℚ → Int × Int) (m : Map) :
    List (String × Hex) → List Ribbon → List (String × Hex) × Bool
  | tree, [] => (tree, true)
  | tree, r :: rs =>
    match load_ribbons_step dist resolveXY m tree r with
    | none => (tree, false)
    | some tree' => load_ribbons_go dist resolveXY m tree' rs

/-- `Map.load_ribbons`: clears `tree_hexagons` first
(`self.tree_hexagons.clear()`), then runs the record loop, inserting
entries one at a time.  The boolean records whether every record was
processed. -/
def Map.load_ribbons (dist : ℚ × ℚ → ℚ × ℚ → ℚ)
    (resolveXY : ℚ × ℚ → Int × Int) (m : Map) (records : List Ribbon) :
    Map × Bool :=
  let result := load_ribbons_go dist resolveXY m [] records
  ({ m with tree_hexagons := result.1 }, result.2)

/-!
The optimal-run construction (`grid.py`, `Grid.create_optimal_run`).
The pathfinder `current_position.find_path(...)` comes from the
external `hexutil` library, so it is a parameter `fp`; §4.4 of the
spec gives its contract (path from start to goal inclusive).  The
`self.map.tiles[...]` lookup of the loop body only swaps a hex for
the `Hex_custom` at the same coordinates, which is equal to it, so it
is the identity here.
-/

/-- The `visited_trees` collection loop of `Grid.create_optimal_run`:
scan the run's hexes in order and collect each truthy, not yet
collected tree number (`if tree_number and tree_number not in
visited_trees`) — the empty string is falsy in Python. -/
def collect_visited (m : Map) (hexes : List Hex) : List String :=
  hexes.foldl (fun acc h =>
    match m.get_tree_number h with
    | none => acc
    | some t => if t ≠ "" ∧ t ∉ acc then acc ++ [t] else acc) []

/-- Dict lookup `self.map.tree_hexagons[tree_number]`. -/
def lookupHex (tree : List (String × Hex)) (t : String) : Option Hex :=
  (tree.find? (fun p => p.1 = t)).map (fun p => p.2)

/-- The hexes of a list in order of first occurrence, duplicates
skipped. -/
def firstOccurrences (hexes : List Hex) : List Hex :=
  hexes.foldl (fun acc h => if h ∈ acc then acc else acc ++ [h]) []

/-- The per-leg hex additions of the optimal run: for each waypoint
hex in order, the pathfinder's path from the current position with
its first element removed (only meaningful when every leg's path
exists). -/
def legPaths (fp : Hex → Hex → Option (List Hex)) (pos : Hex) :
    List Hex → List (List Hex)
  | [] => []
  | t :: ts => ((fp pos t).getD []).drop 1 :: legPaths fp t ts

/-- One iteration of `Grid.create_optimal_run`'s leg loop: look up
the waypoint's hex, run the pathfinder from the current position,
add every path hex but the first to the optimal run, and advance the
current position to the waypoint's hex.  A tree number missing from
the index is skipped (unreachable: every collected number is a
key). -/
def optimal_run_step (m : Map) (fp : Hex → Hex → Option (List Hex))
    (st : Hex × Run) (t : String) : Option (Hex × Run) :=
  match lookupHex m.tree_hexagons t with
  | none => some st
  | some tree_hexagon =>
    match fp st.1 tree_hexagon with
    | none => none
    | some path =>
      let orun := (path.drop 1).foldl
        (fun r hx => (r.add_hexagon hx).1) st.2
      some (tree_hexagon, orun)

/-- The leg loop of `Grid.create_optimal_run`, propagating a failed
leg (`NoPathFound`) as `none`. -/
def optimal_run_go (m : Map) (fp : Hex → Hex → Option (List Hex)) :
    Hex × Run → List String → Option (Hex × Run)
  | st, [] => some st
  | st, t :: ts =>
    match optimal_run_step m fp st t with
    | none => none
    | some st2 => optimal_run_go m fp st2 ts

/-- `Grid.create_optimal_run`: collect the visited tree numbers, start
a fresh run at the recorded run's first hex (`none` when the recorded
run is empty — the source raises `IndexError` there), then fold the
leg loop over the collected numbers. -/
def create_optimal_run (m : Map) (fp : Hex → Hex → Option (List Hex))
    (run : Run) : Option Run :=
  match run.hexagons with
  | [] => none
  | h₀ :: _ =>
    let visited := collect_visited m run.hexagons
    let optimal_run := (Run.add_hexagon { run_id := run.run_id } h₀).1
    (optimal_run_go m fp (h₀, optimal_run) visited).map (fun st => st.2)

/-- A minimal valid pathfinder used to instantiate `fp` in concrete
inputs: the trivial path on equal endpoints, the two-hex path on
adjacent endpoints, failure otherwise. -/
def adjPathfinder (a b : Hex) : Option (List Hex) :=
  if a = b then some [a]
  else if b ∈ a.neighbours then some [a, b]
  else none

/-- Follows the spec's words (§4.3): a hexagon lies on the outer ring
of the grid when it is a grid coordinate (`x = 2*col + row parity`
with `0 ≤ col < num_hor`, `0 ≤ row < num_ver`) in the top or bottom
row or the left- or rightmost column. -/
def spec_onOuterRing (m : Map) (h : Hex) : Prop :=
  ∃ col row : Int, 0 ≤ col ∧ col < m.num_hor ∧ 0 ≤ row ∧ row < m.num_ver ∧
    h.x = 2 * col + row % 2 ∧ h.y = row ∧
    (row = 0 ∨ row = m.num_ver - 1 ∨ col = 0 ∨ col = m.num_hor - 1)

/-- A waypoint index has unique identifiers (Python dict keys). -/
def keysNodup (tree : List (String × Hex)) : Prop :=
  (tree.map Prod.fst).Nodup

instance (tree : List (String × Hex)) : Decidable (keysNodup tree) := by
  unfold keysNodup; infer_instance

/-- No two identifiers of a waypoint index resolve to the same hex. -/
def valuesInjective (tree : List (String × Hex)) : Prop :=
  ∀ p ∈ tree, ∀ q ∈ tree, p.2 = q.2 → p.1 = q.1

instance (tree : List (String × Hex)) : Decidable (valuesInjective tree) := by
  unfold valuesInjective; infer_instance

/-- A concrete distance function to instantiate the `dist` parameter
in counterexamples: the taxicab distance on ℚ pairs. -/
def absDist (p q : ℚ × ℚ) : ℚ := |p.1 - q.1| + |p.2 - q.2|

/-! ### Theorems about the `Map` queries -/

/-- C5: `is_passable` returns false exactly when `get_tile` returns
water (3) or blank (5), with any coordinate absent from `tiles`
defaulting to blank, and returns true otherwise — for all
coordinates, in or out of the assigned range. -/
theorem is_passable_false_iff_water_or_blank (m : Map) (h : Hex) :
    (m.is_passable h = false ↔ m.get_tile h = 3 ∨ m.get_tile h = 5) ∧
    (m.tiles.lookup (h.x, h.y) = none → m.get_tile h = 5) := by
  refine ⟨?_, ?_⟩
  · by_cases hc : m.get_tile h = 3 ∨ m.get_tile h = 5 <;>
      simp [Map.is_passable, hc]
  · intro hnone
    unfold Map.get_tile
    rw [hnone]

/-- C5 witness: on the empty map every coordinate is blank, hence not
passable. -/
theorem is_passable_false_iff_water_or_blank_witness :
    Map.is_passable {} ⟨0, 0⟩ = false :=
  (is_passable_false_iff_water_or_blank {} ⟨0, 0⟩).1.mpr
    (Or.inr ((is_passable_false_iff_water_or_blank {} ⟨0, 0⟩).2 rfl))

/-- C6: `cost` returns 1.5 for grass (1), 10 for bushes (2) and 1 for
path (4). -/
theorem cost_of_grass_bushes_path (m : Map) (h : Hex) :
    (m.get_tile h = 1 → m.cost h = some (3 / 2)) ∧
    (m.get_tile h = 2 → m.cost h = some 10) ∧
    (m.get_tile h = 4 → m.cost h = some 1) := by
  refine ⟨?_, ?_, ?_⟩ <;> intro hc <;> simp [Map.cost, hc]

/-- C6 witness: a concrete map holding one grass, one bushes and one
path tile realises all three costs. -/
theorem cost_of_grass_bushes_path_witness :
    Map.cost { tiles := [((0, 0), 1), ((2, 0), 2), ((4, 0), 4)] } ⟨0, 0⟩
      = some (3 / 2) ∧
    Map.cost { tiles := [((0, 0), 1), ((2, 0), 2), ((4, 0), 4)] } ⟨2, 0⟩
      = some 10 ∧
    Map.cost { tiles := [((0, 0), 1), ((2, 0), 2), ((4, 0), 4)] } ⟨4, 0⟩
      = some 1 :=
  ⟨(cost_of_grass_bushes_path _ ⟨0, 0⟩).1 rfl,
   (cost_of_grass_bushes_path _ ⟨2, 0⟩).2.1 rfl,
   (cost_of_grass_bushes_path _ ⟨4, 0⟩).2.2 rfl⟩

/-- C10: for water (3) and blank (5) — in particular for every
coordinate absent from `tiles` — `cost` returns no value at all. -/
theorem cost_none_of_water_or_blank (m : Map) (h : Hex) :
    ((m.get_tile h = 3 ∨ m.get_tile h = 5) → m.cost h = none) ∧
    (m.tiles.lookup (h.x, h.y) = none → m.cost h = none) := by
  have habsent : m.tiles.lookup (h.x, h.y) = none → m.get_tile h = 5 := by
    intro hnone
    unfold Map.get_tile
    rw [hnone]
  refine ⟨fun hwb => ?_, fun hnone => ?_⟩
  · rcases hwb with hc | hc <;> simp [Map.cost, hc]
  · simp [Map.cost, habsent hnone]

/-- C10 witness: a concrete water tile and an unassigned coordinate
both yield `none`. -/
theorem cost_none_of_water_or_blank_witness :
    Map.cost { tiles := [((0, 0), 3)] } ⟨0, 0⟩ = none ∧
    Map.cost { tiles := [((0, 0), 3)] } ⟨2, 0⟩ = none :=
  ⟨(cost_none_of_water_or_blank _ ⟨0, 0⟩).1 (Or.inl rfl),
   (cost_none_of_water_or_blank _ ⟨2, 0⟩).2 rfl⟩

/-! ### Theorems about `Run` mutation -/

/-- C3: `add_hexagon` makes the hex the sole element of an empty run;
otherwise it appends when the hex neighbours the last element, else
prepends when it neighbours the first element, else leaves the run
unchanged and returns false. -/
theorem add_hexagon_cases (r : Run) (h first lastHex : Hex)
    (rest : List Hex) :
    (r.hexagons = [] → r.add_hexagon h = ({ r with hexagons := [h] }, true)) ∧
    (r.hexagons = first :: rest → r.hexagons.getLast? = some lastHex →
      ((h ∈ lastHex.neighbours →
          r.add_hexagon h = ({ r with hexagons := (first :: rest) ++ [h] }, true)) ∧
       (h ∉ lastHex.neighbours → h ∈ first.neighbours →
          r.add_hexagon h = ({ r with hexagons := h :: first :: rest }, true)) ∧
       (h ∉ lastHex.neighbours → h ∉ first.neighbours →
          r.add_hexagon h = (r, false)))) := by
  constructor
  · intro hnil
    unfold Run.add_hexagon
    split <;> simp_all
  · intro hcons hlast
    have hl : lastHex = (first :: rest).getLast (by simp) := by
      rw [hcons, List.getLast?_eq_getLast _ (by simp)] at hlast
      exact (Option.some_injective _ hlast).symm
    unfold Run.add_hexagon
    split
    · simp_all
    · rename_i first' rest' hcons'
      rw [hcons] at hcons'
      obtain ⟨rfl, rfl⟩ : first = first' ∧ rest = rest' := by
        simpa using hcons'
      refine ⟨fun hmem => ?_, fun hnmem hmem => ?_, fun hnmem hnmem' => ?_⟩ <;>
        simp_all

/-- C3 witness: on the run `[(0,0), (2,0)]` the hex `(-2,0)` is not a
neighbour of the last element but neighbours the first, so it is
prepended. -/
theorem add_hexagon_cases_witness :
    Run.add_hexagon { hexagons := [⟨0, 0⟩, ⟨2, 0⟩] } ⟨-2, 0⟩
      = ({ hexagons := [⟨-2, 0⟩, ⟨0, 0⟩, ⟨2, 0⟩] }, true) :=
  ((add_hexagon_cases { hexagons := [⟨0, 0⟩, ⟨2, 0⟩] } ⟨-2, 0⟩ ⟨0, 0⟩ ⟨2, 0⟩
      [⟨2, 0⟩]).2 rfl rfl).2.1 (by decide) (by decide)

/-- Lattice adjacency is symmetric: the six neighbour offsets are
closed under negation. -/
theorem mem_neighbours_symm (a b : Hex) :
    a ∈ b.neighbours ↔ b ∈ a.neighbours := by
  obtain ⟨ax, ay⟩ := a
  obtain ⟨bx, b_y⟩ := b
  simp only [Hex.neighbours, List.mem_cons, List.mem_singleton,
    Hex.mk.injEq, List.not_mem_nil, or_false]
  omega

/-- `add_hexagon` on an empty run makes the hex the sole element. -/
theorem add_hexagon_of_nil (r : Run) (h : Hex) (hr : r.hexagons = []) :
    r.add_hexagon h = ({ r with hexagons := [h] }, true) := by
  unfold Run.add_hexagon
  split
  · rfl
  · simp_all

/-- `add_hexagon` appends when the hex neighbours the last element. -/
theorem add_hexagon_of_last (r : Run) (h lastHex first : Hex) (rest : List Hex)
    (hr : r.hexagons = first :: rest) (hl : r.hexagons.getLast? = some lastHex)
    (hmem : h ∈ lastHex.neighbours) :
    r.add_hexagon h = ({ r with hexagons := (first :: rest) ++ [h] }, true) := by
  unfold Run.add_hexagon
  split
  · simp_all
  · rename_i f' r' hcons'
    rw [hr] at hcons'
    obtain ⟨rfl, rfl⟩ : first = f' ∧ rest = r' := by simpa using hcons'
    have hlast : lastHex = (first :: rest).getLast (by simp) := by
      rw [hr, List.getLast?_eq_getLast _ (by simp)] at hl
      exact (Option.some_injective _ hl).symm
    rw [hlast] at hmem
    simp only
    rw [if_pos hmem]

/-- `add_hexagon` prepends when the hex does not neighbour the last
element but neighbours the first. -/
theorem add_hexagon_of_first (r : Run) (h lastHex first : Hex) (rest : List Hex)
    (hr : r.hexagons = first :: rest) (hl : r.hexagons.getLast? = some lastHex)
    (hnmem : h ∉ lastHex.neighbours) (hmem : h ∈ first.neighbours) :
    r.add_hexagon h = ({ r with hexagons := h :: first :: rest }, true) := by
  unfold Run.add_hexagon
  split
  · simp_all
  · rename_i f' r' hcons'
    rw [hr] at hcons'
    obtain ⟨rfl, rfl⟩ : first = f' ∧ rest = r' := by simpa using hcons'
    have hlast : lastHex = (first :: rest).getLast (by simp) := by
      rw [hr, List.getLast?_eq_getLast _ (by simp)] at hl
      exact (Option.some_injective _ hl).symm
    rw [hlast] at hnmem
    simp only
    rw [if_neg hnmem, if_pos hmem]

/-- `add_hexagon` refuses a hex neighbouring neither endpoint. -/
theorem add_hexagon_of_none (r : Run) (h lastHex first : Hex) (rest : List Hex)
    (hr : r.hexagons = first :: rest) (hl : r.hexagons.getLast? = some lastHex)
    (hnmem : h ∉ lastHex.neighbours) (hnmem' : h ∉ first.neighbours) :
    r.add_hexagon h = (r, false) := by
  unfold Run.add_hexagon
  split
  · simp_all
  · rename_i f' r' hcons'
    rw [hr] at hcons'
    obtain ⟨rfl, rfl⟩ : first = f' ∧ rest = r' := by simpa using hcons'
    have hlast : lastHex = (first :: rest).getLast (by simp) := by
      rw [hr, List.getLast?_eq_getLast _ (by simp)] at hl
      exact (Option.some_injective _ hl).symm
    rw [hlast] at hnmem
    simp only
    rw [if_neg hnmem, if_neg hnmem']

/-- `remove_hexagon` drops the last element when it matches. -/
theorem remove_hexagon_of_last (r : Run) (h : Hex)
    (hlen : r.hexagons.length > 1) (hl : r.hexagons.getLast? = some h) :
    r.remove_hexagon h = ({ r with hexagons := r.hexagons.dropLast }, true) := by
  unfold Run.remove_hexagon
  rw [if_pos hlen, if_pos hl]

/-- `remove_hexagon` drops the first element when the last does not
match but the first does. -/
theorem remove_hexagon_of_first (r : Run) (h : Hex)
    (hlen : r.hexagons.length > 1) (hnl : ¬ r.hexagons.getLast? = some h)
    (hh : r.hexagons.head? = some h) :
    r.remove_hexagon h = ({ r with hexagons := r.hexagons.tail }, true) := by
  unfold Run.remove_hexagon
  rw [if_pos hlen, if_neg hnl, if_pos hh]

/-- `add_hexagon` preserves the chain of lattice-adjacent pairs. -/
theorem add_hexagon_preserves_chain (r : Run) (h : Hex)
    (hr : r.hexagons.Chain' Hex.adj) :
    ((r.add_hexagon h).1.hexagons).Chain' Hex.adj := by
  rcases hx : r.hexagons with - | ⟨first, rest⟩
  · rw [add_hexagon_of_nil r h hx]
    simp
  · obtain ⟨lastHex, hl⟩ : ∃ lh, r.hexagons.getLast? = some lh :=
      ⟨_, by rw [hx]; exact List.getLast?_eq_getLast _ (by simp)⟩
    by_cases hmem : h ∈ lastHex.neighbours
    · rw [add_hexagon_of_last r h lastHex first rest hx hl hmem]
      simp only
      rw [List.chain'_append]
      refine ⟨hx ▸ hr, List.chain'_singleton h, ?_⟩
      intro x hgx y hgy
      simp only [List.head?_cons, Option.mem_def, Option.some.injEq] at hgy
      subst hgy
      have hxl : some x = some lastHex := by
        rw [← hgx, ← hl, hx]
      obtain rfl : x = lastHex := Option.some_injective _ hxl
      exact hmem
    · by_cases hmem' : h ∈ first.neighbours
      · rw [add_hexagon_of_first r h lastHex first rest hx hl hmem hmem']
        simp only
        rw [List.chain'_cons']
        refine ⟨?_, hx ▸ hr⟩
        intro y hy
        simp only [List.head?_cons, Option.mem_def, Option.some.injEq] at hy
        subst hy
        exact (mem_neighbours_symm h first).mp hmem'
      · rw [add_hexagon_of_none r h lastHex first rest hx hl hmem hmem']
        exact hr

/-- `remove_hexagon` preserves the chain of lattice-adjacent pairs. -/
theorem remove_hexagon_preserves_chain (r : Run) (h : Hex)
    (hr : r.hexagons.Chain' Hex.adj) :
    ((r.remove_hexagon h).1.hexagons).Chain' Hex.adj := by
  unfold Run.remove_hexagon
  split
  · split
    · rename_i hlen _
      simp only
      have hne : r.hexagons ≠ [] := by
        intro hnil; rw [hnil] at hlen; simp at hlen
      have : r.hexagons.dropLast ++ [r.hexagons.getLast hne] = r.hexagons :=
        List.dropLast_append_getLast hne
      have hchain := this ▸ hr
      exact (List.chain'_append.mp hchain).1
    · split
      · exact hr.tail
      · exact hr
  · exact hr

/-- C2: starting from an empty run, any sequence of
`add_hexagon`/`remove_hexagon` calls leaves every adjacent pair of
the sequence lattice-adjacent, and `remove_hexagon` on a
one-element run removes nothing. -/
theorem run_ops_invariant (r₀ : Run) (ops : List RunOp)
    (h₀ : r₀.hexagons = []) :
    ((r₀.applyOps ops).hexagons).Chain' Hex.adj ∧
    (∀ (r : Run) (h : Hex), r.hexagons.length = 1 →
      ((r.remove_hexagon h).1.hexagons ≠ [] ∧ (r.remove_hexagon h).2 = false)) := by
  constructor
  · have step : ∀ (r : Run), r.hexagons.Chain' Hex.adj →
        ∀ op : RunOp, ((match op with
          | RunOp.add h => (r.add_hexagon h).1
          | RunOp.remove h => (r.remove_hexagon h).1).hexagons).Chain' Hex.adj := by
      intro r hc op
      cases op with
      | add h => exact add_hexagon_preserves_chain r h hc
      | remove h => exact remove_hexagon_preserves_chain r h hc
    have base : r₀.hexagons.Chain' Hex.adj := by
      rw [h₀]; exact List.chain'_nil
    clear h₀
    induction ops generalizing r₀ with
    | nil => exact base
    | cons op rest ih =>
      unfold Run.applyOps
      rw [List.foldl_cons]
      exact ih _ (step r₀ base op)
  · intro r h hlen
    unfold Run.remove_hexagon
    have : ¬ r.hexagons.length > 1 := by omega
    rw [if_neg this]
    refine ⟨?_, rfl⟩
    intro hnil
    rw [hnil] at hlen
    simp at hlen

/-- C2 witness: growing a run to `[(0,0), (2,0)]` keeps the chain,
and removing from a one-element run is refused. -/
theorem run_ops_invariant_witness :
    ((Run.applyOps {} [RunOp.add ⟨0, 0⟩, RunOp.add ⟨2, 0⟩]).hexagons).Chain'
        Hex.adj ∧
    ((Run.remove_hexagon { hexagons := [⟨0, 0⟩] } ⟨0, 0⟩).1.hexagons ≠ [] ∧
      (Run.remove_hexagon { hexagons := [⟨0, 0⟩] } ⟨0, 0⟩).2 = false) :=
  ⟨(run_ops_invariant {} [RunOp.add ⟨0, 0⟩, RunOp.add ⟨2, 0⟩] rfl).1,
   (run_ops_invariant {} [] rfl).2 { hexagons := [⟨0, 0⟩] } ⟨0, 0⟩ rfl⟩

/-- C4 counterexample: on the one-element run `[(0,0)]`, adding the
neighbour `(2,0)` succeeds (appended) and the immediately following
removal also succeeds (it is now the last element) — both calls
return true. -/
theorem add_then_remove_both_true_cex :
    (Run.add_hexagon { hexagons := [⟨0, 0⟩] } ⟨2, 0⟩).2 = true ∧
    ((Run.add_hexagon { hexagons := [⟨0, 0⟩] } ⟨2, 0⟩).1.remove_hexagon
        ⟨2, 0⟩).2 = true := by
  constructor <;> rfl

/-- C4 amended: add-then-remove both return true exactly when the run
was nonempty and the add succeeded; at most one of the two returns
true only for an empty run or a failing add.  (The caller
`Grid.modify_current_run` still gets toggle semantics because its
`or` short-circuits: `remove_hexagon` runs only when `add_hexagon`
returned false.) -/
theorem add_then_remove_both_true_iff (r : Run) (h : Hex) :
    ((r.add_hexagon h).2 = true ∧
        ((r.add_hexagon h).1.remove_hexagon h).2 = true) ↔
      (r.hexagons ≠ [] ∧ (r.add_hexagon h).2 = true) := by
  rcases hx : r.hexagons with - | ⟨first, rest⟩
  · rw [add_hexagon_of_nil r h hx]
    simp only
    constructor
    · rintro ⟨-, hrem⟩
      unfold Run.remove_hexagon at hrem
      simp at hrem
    · rintro ⟨hne, -⟩
      simp_all
  · obtain ⟨lastHex, hl⟩ : ∃ lh, r.hexagons.getLast? = some lh :=
      ⟨_, by rw [hx]; exact List.getLast?_eq_getLast _ (by simp)⟩
    by_cases hmem : h ∈ lastHex.neighbours
    · rw [add_hexagon_of_last r h lastHex first rest hx hl hmem]
      have hrem : (Run.remove_hexagon
          { r with hexagons := (first :: rest) ++ [h] } h).2 = true := by
        rw [remove_hexagon_of_last _ h (by simp) (by
          show ((first :: rest) ++ [h]).getLast? = some h
          exact List.getLast?_concat _)]
      exact ⟨fun _ => ⟨by simp, rfl⟩, fun _ => ⟨rfl, hrem⟩⟩
    · by_cases hmem' : h ∈ first.neighbours
      · rw [add_hexagon_of_first r h lastHex first rest hx hl hmem hmem']
        have hrem : (Run.remove_hexagon
            { r with hexagons := h :: first :: rest } h).2 = true := by
          by_cases hgl : (h :: first :: rest).getLast? = some h
          · rw [remove_hexagon_of_last _ h (by simp) hgl]
          · rw [remove_hexagon_of_first _ h (by simp) hgl (by simp)]
        exact ⟨fun _ => ⟨by simp, rfl⟩, fun _ => ⟨rfl, hrem⟩⟩
      · rw [add_hexagon_of_none r h lastHex first rest hx hl hmem hmem']
        simp

/-! ### Transparency at the grid boundary (C7), ribbon refinement (C8)
and reload semantics (C9) -/

/-- C7: on the 2×2 all-grass map the hexagon `(3,1)` lies on the
outer ring of the grid (bottom row, rightmost column), its tile is
not blank, a neighbour's tile is blank, and yet `is_transparent`
returns true: the source's edge test `x == 0 or y == 0 or
x == num_hor * 2 or y == num_ver` never matches it, because grid
coordinates only reach `2 * num_hor - 1` and `num_ver - 1`. -/
theorem is_transparent_outer_ring_bug :
    Map.is_transparent
        { tiles := [((0, 0), 1), ((2, 0), 1), ((1, 1), 1), ((3, 1), 1)],
          num_hor := 2, num_ver := 2 } ⟨3, 1⟩ = true ∧
    Map.get_tile
        { tiles := [((0, 0), 1), ((2, 0), 1), ((1, 1), 1), ((3, 1), 1)],
          num_hor := 2, num_ver := 2 } ⟨3, 1⟩ ≠ 5 ∧
    spec_onOuterRing
        { tiles := [((0, 0), 1), ((2, 0), 1), ((1, 1), 1), ((3, 1), 1)],
          num_hor := 2, num_ver := 2 } ⟨3, 1⟩ ∧
    (⟨5, 1⟩ : Hex) ∈ (⟨3, 1⟩ : Hex).neighbours ∧
    Map.get_tile
        { tiles := [((0, 0), 1), ((2, 0), 1), ((1, 1), 1), ((3, 1), 1)],
          num_hor := 2, num_ver := 2 } ⟨5, 1⟩ = 5 := by
  refine ⟨by decide, by decide, ⟨1, 1, by decide⟩, by decide, by decide⟩

/-- C8: with the taxicab distance, a waypoint sitting exactly on the
center of hexagon `(3,1)` whose rectangular inversion produced the
adjacent candidate `(1,1)` is left on the candidate by the code's
refinement (the candidate's stored hex is returned unchanged), while
the spec's refinement reassigns it to `(3,1)`: the code measures the
distance to `(neighbour.x, y_model)` — grid indices read as
latitude/longitude — instead of to the neighbour's center, which the
source computes into `neighbour_coords` and never uses. -/
theorem refine_ribbon_compares_grid_indices_bug :
    refine_ribbon absDist { num_hor := 2, num_ver := 2 }
        (Map.get_gps_coords { num_hor := 2, num_ver := 2 } ⟨3, 1⟩) 1 ⟨1, 1⟩
      = ⟨1, 1⟩ ∧
    spec_refine_ribbon absDist { num_hor := 2, num_ver := 2 }
        (Map.get_gps_coords { num_hor := 2, num_ver := 2 } ⟨3, 1⟩) ⟨1, 1⟩
      = ⟨3, 1⟩ := by
  constructor <;>
    norm_num [refine_ribbon, spec_refine_ribbon, Map.get_gps_coords,
      top_left_coords, top_right_coords, bottom_left_coords, absDist,
      Hex.neighbours, List.find?, abs_of_pos, abs_of_nonneg]

/-- C9 counterexample: reloading the index over a previous entry
`("OLD", (4,4))` from two records of which the second resolves
outside the map fails partway and leaves `tree_hexagons` holding
exactly the first record — the previous index is not intact. -/
theorem load_ribbons_partial_on_failure_cex :
    (Map.load_ribbons (fun _ _ => 0)
        (fun p => if p.1 = 1 then (0, 0) else (99, 99))
        { tiles := [((0, 0), 1)], tree_hexagons := [("OLD", ⟨4, 4⟩)] }
        [⟨1, 0, "N1"⟩, ⟨2, 0, "N2"⟩]).2 = false ∧
    (Map.load_ribbons (fun _ _ => 0)
        (fun p => if p.1 = 1 then (0, 0) else (99, 99))
        { tiles := [((0, 0), 1)], tree_hexagons := [("OLD", ⟨4, 4⟩)] }
        [⟨1, 0, "N1"⟩, ⟨2, 0, "N2"⟩]).1.tree_hexagons = [("N1", ⟨0, 0⟩)] ∧
    (Map.load_ribbons (fun _ _ => 0)
        (fun p => if p.1 = 1 then (0, 0) else (99, 99))
        { tiles := [((0, 0), 1)], tree_hexagons := [("OLD", ⟨4, 4⟩)] }
        [⟨1, 0, "N1"⟩, ⟨2, 0, "N2"⟩]).1.tree_hexagons
      ≠ [("OLD", ⟨4, 4⟩)] := by
  refine ⟨by decide, by decide, by decide⟩

/-- The record loop never reads the previous `tree_hexagons`. -/
theorem load_ribbons_go_tree_irrel (d : ℚ × ℚ → ℚ × ℚ → ℚ)
    (rxy : ℚ × ℚ → Int × Int) (m : Map) (t' : List (String × Hex)) :
    ∀ (records : List Ribbon) (tree : List (String × Hex)),
      load_ribbons_go d rxy { m with tree_hexagons := t' } tree records
        = load_ribbons_go d rxy m tree records := by
  intro records
  induction records with
  | nil => intro tree; rfl
  | cons r rs ih =>
    intro tree
    have hstep : load_ribbons_step d rxy { m with tree_hexagons := t' } tree r
        = load_ribbons_step d rxy m tree r := rfl
    unfold load_ribbons_go
    rw [hstep]
    cases load_ribbons_step d rxy m tree r with
    | none => rfl
    | some tree2 => exact ih tree2

/-- When the record loop fails it has processed exactly a prefix of
the records, and its state is the index built from that prefix. -/
theorem load_ribbons_go_false_spec (d : ℚ × ℚ → ℚ × ℚ → ℚ)
    (rxy : ℚ × ℚ → Int × Int) (m : Map) :
    ∀ (records : List Ribbon) (tree : List (String × Hex)),
      (load_ribbons_go d rxy m tree records).2 = false →
      ∃ i, ∃ hi : i < records.length,
        (load_ribbons_go d rxy m tree (records.take i)).2 = true ∧
        (load_ribbons_go d rxy m tree records).1
          = (load_ribbons_go d rxy m tree (records.take i)).1 ∧
        load_ribbons_step d rxy m
          ((load_ribbons_go d rxy m tree (records.take i)).1)
          (records.get ⟨i, hi⟩) = none := by
  intro records
  induction records with
  | nil =>
    intro tree hfalse
    simp [load_ribbons_go] at hfalse
  | cons r rs ih =>
    intro tree hfalse
    cases hstep : load_ribbons_step d rxy m tree r with
    | none =>
      refine ⟨0, by simp, rfl, ?_, by simpa using hstep⟩
      simp only [load_ribbons_go, hstep, List.take_zero]
    | some tree2 =>
      have h2 : (load_ribbons_go d rxy m tree2 rs).2 = false := by
        unfold load_ribbons_go at hfalse
        rw [hstep] at hfalse
        exact hfalse
      obtain ⟨i, hi, htrue, heq, hnone⟩ := ih tree2 h2
      have htake : ∀ js : List Ribbon,
          load_ribbons_go d rxy m tree (r :: js)
            = load_ribbons_go d rxy m tree2 js := by
        intro js
        simp only [load_ribbons_go, hstep]
      refine ⟨i + 1, by simpa using Nat.succ_lt_succ hi, ?_, ?_, ?_⟩
      · rw [List.take_succ_cons, htake]
        exact htrue
      · rw [htake, List.take_succ_cons, htake]
        exact heq
      · rw [List.take_succ_cons, htake]
        exact hnone

/-- C9 amended: reloading replaces the previous index wholesale — the
result never depends on the prior `tree_hexagons` — but the
replacement is not transactional: `load_ribbons` clears the index
first and inserts entries one at a time, so a load failing partway
leaves `tree_hexagons` holding exactly the index built from the
longest processable prefix of the records; the previous index is
lost, not intact. -/
theorem load_ribbons_wholesale_not_transactional (d : ℚ × ℚ → ℚ × ℚ → ℚ)
    (rxy : ℚ × ℚ → Int × Int) (m : Map) (t' : List (String × Hex))
    (records : List Ribbon) :
    ((Map.load_ribbons d rxy { m with tree_hexagons := t' } records).1.tree_hexagons
        = (Map.load_ribbons d rxy m records).1.tree_hexagons ∧
      (Map.load_ribbons d rxy { m with tree_hexagons := t' } records).2
        = (Map.load_ribbons d rxy m records).2) ∧
    ((Map.load_ribbons d rxy m records).2 = false →
      ∃ i, ∃ hi : i < records.length,
        (Map.load_ribbons d rxy m (records.take i)).2 = true ∧
        (Map.load_ribbons d rxy m records).1.tree_hexagons
          = (Map.load_ribbons d rxy m (records.take i)).1.tree_hexagons ∧
        load_ribbons_step d rxy m
          ((Map.load_ribbons d rxy m (records.take i)).1.tree_hexagons)
          (records.get ⟨i, hi⟩) = none) := by
  constructor
  · unfold Map.load_ribbons
    rw [load_ribbons_go_tree_irrel]
    exact ⟨rfl, rfl⟩
  · intro hfalse
    obtain ⟨i, hi, htrue, heq, hnone⟩ :=
      load_ribbons_go_false_spec d rxy m records [] hfalse
    exact ⟨i, hi, htrue, heq, hnone⟩

/-- C9 amended witness: a single unresolvable record over a previous
one-entry index fails immediately, and the resulting index is the
empty prefix index (the previous entry is gone). -/
theorem load_ribbons_wholesale_not_transactional_witness :
    ((Map.load_ribbons (fun _ _ => 0) (fun _ => (9, 9))
          { tiles := [], tree_hexagons := [("OLD", ⟨0, 0⟩)] }
          [⟨0, 0, "X"⟩]).1.tree_hexagons
        = (Map.load_ribbons (fun _ _ => 0) (fun _ => (9, 9))
          { tiles := [] } [⟨0, 0, "X"⟩]).1.tree_hexagons) ∧
    (∃ i, ∃ hi : i < [(⟨0, 0, "X"⟩ : Ribbon)].length,
      (Map.load_ribbons (fun _ _ => 0) (fun _ => (9, 9))
          { tiles := [] } ([(⟨0, 0, "X"⟩ : Ribbon)].take i)).2 = true ∧
      (Map.load_ribbons (fun _ _ => 0) (fun _ => (9, 9))
          { tiles := [] } [⟨0, 0, "X"⟩]).1.tree_hexagons
        = (Map.load_ribbons (fun _ _ => 0) (fun _ => (9, 9))
          { tiles := [] } ([(⟨0, 0, "X"⟩ : Ribbon)].take i)).1.tree_hexagons ∧
      load_ribbons_step (fun _ _ => 0) (fun _ => (9, 9)) { tiles := [] }
          ((Map.load_ribbons (fun _ _ => 0) (fun _ => (9, 9))
            { tiles := [] } ([(⟨0, 0, "X"⟩ : Ribbon)].take i)).1.tree_hexagons)
          ([(⟨0, 0, "X"⟩ : Ribbon)].get ⟨i, hi⟩) = none) :=
  ⟨(load_ribbons_wholesale_not_transactional (fun _ _ => 0) (fun _ => (9, 9))
      { tiles := [] } [("OLD", ⟨0, 0⟩)] [⟨0, 0, "X"⟩]).1.1,
   (load_ribbons_wholesale_not_transactional (fun _ _ => 0) (fun _ => (9, 9))
      { tiles := [] } [("OLD", ⟨0, 0⟩)] [⟨0, 0, "X"⟩]).2 (by decide)⟩

/-! ### The optimal-run construction (C1) -/

/-- A reported tree number is an entry of the index. -/
theorem get_tree_number_mem (m : Map) (h : Hex) (t : String)
    (hget : m.get_tree_number h = some t) : (t, h) ∈ m.tree_hexagons := by
  unfold Map.get_tree_number at hget
  cases hf : m.tree_hexagons.find? (fun p => p.2 = h) with
  | none => rw [hf] at hget; cases hget
  | some p =>
    rw [hf] at hget
    obtain rfl : p.1 = t := by simpa using hget
    have hp : p ∈ m.tree_hexagons := List.mem_of_find?_eq_some hf
    have hph : p.2 = h := by simpa using List.find?_some hf
    have : p = (p.1, h) := by rw [← hph]
    rw [← this]
    exact hp

/-- When no two identifiers share a hex, an index entry is reported
back by `get_tree_number`. -/
theorem get_tree_number_eq_some (m : Map) (t : String) (h : Hex)
    (hinj : valuesInjective m.tree_hexagons)
    (hmem : (t, h) ∈ m.tree_hexagons) : m.get_tree_number h = some t := by
  unfold Map.get_tree_number
  cases hf : m.tree_hexagons.find? (fun p => p.2 = h) with
  | none =>
    have := List.find?_eq_none.mp hf (t, h) hmem
    simp at this
  | some q =>
    have hq : q ∈ m.tree_hexagons := List.mem_of_find?_eq_some hf
    have hqh : q.2 = h := by simpa using List.find?_some hf
    have : q.1 = t := hinj q hq (t, h) hmem (by simpa using hqh)
    simp [this]

/-- With unique identifiers, `get_tree_number` reports a tree number
for at most one hex. -/
theorem get_tree_number_inj (m : Map)
    (hkeys : keysNodup m.tree_hexagons) (h₁ h₂ : Hex) (t : String)
    (hg₁ : m.get_tree_number h₁ = some t)
    (hg₂ : m.get_tree_number h₂ = some t) : h₁ = h₂ := by
  have hm₁ := get_tree_number_mem m h₁ t hg₁
  have hm₂ := get_tree_number_mem m h₂ t hg₂
  have := List.inj_on_of_nodup_map hkeys hm₁ hm₂ rfl
  exact congrArg Prod.snd this

/-- `get_tree_number` is stable under permutation of a waypoint index
with no shared hexes. -/
theorem get_tree_number_perm (m : Map) (tree' : List (String × Hex))
    (hperm : m.tree_hexagons.Perm tree')
    (hinj : valuesInjective m.tree_hexagons) (h : Hex) :
    Map.get_tree_number { m with tree_hexagons := tree' } h
      = m.get_tree_number h := by
  unfold Map.get_tree_number
  simp only
  cases hf : m.tree_hexagons.find? (fun p => p.2 = h) with
  | none =>
    cases hf' : tree'.find? (fun p => p.2 = h) with
    | none => rfl
    | some q =>
      have hq : q ∈ tree' := List.mem_of_find?_eq_some hf'
      have hqh : q.2 = h := by simpa using List.find?_some hf'
      have := List.find?_eq_none.mp hf q (hperm.mem_iff.mpr hq)
      simp_all
  | some p =>
    have hp : p ∈ m.tree_hexagons := List.mem_of_find?_eq_some hf
    have hph : p.2 = h := by simpa using List.find?_some hf
    cases hf' : tree'.find? (fun p => p.2 = h) with
    | none =>
      have := List.find?_eq_none.mp hf' p (hperm.mem_iff.mp hp)
      simp_all
    | some q =>
      have hq : q ∈ tree' := List.mem_of_find?_eq_some hf'
      have hqh : q.2 = h := by simpa using List.find?_some hf'
      have : q.1 = p.1 :=
        hinj q (hperm.mem_iff.mpr hq) p hp (by rw [hqh, hph])
      simp [this]

/-- `collect_visited` only depends on the index through
`get_tree_number`. -/
theorem collect_visited_congr (m m' : Map) (hexes : List Hex)
    (hpt : ∀ h, m.get_tree_number h = m'.get_tree_number h) :
    collect_visited m hexes = collect_visited m' hexes := by
  unfold collect_visited
  congr 1
  funext acc h
  rw [hpt]

/-- Membership in the `visited_trees` fold: the collected numbers are
the nonempty identifiers reported for some hex of the scan, plus the
accumulator. -/
theorem collect_visited_fold_mem (m : Map) :
    ∀ (hexes : List Hex) (acc : List String) (t : String),
      (t ∈ hexes.foldl (fun acc h =>
          match m.get_tree_number h with
          | none => acc
          | some s => if s ≠ "" ∧ s ∉ acc then acc ++ [s] else acc) acc ↔
        t ∈ acc ∨ (t ≠ "" ∧ ∃ h ∈ hexes, m.get_tree_number h = some t)) := by
  intro hexes
  induction hexes with
  | nil => intro acc t; simp
  | cons h hs ih =>
    intro acc t
    rw [List.foldl_cons, ih]
    cases hg : m.get_tree_number h with
    | none =>
      simp only [hg, List.mem_cons]
      constructor
      · rintro (hacc | ⟨hne, h', hh', hg'⟩)
        · exact Or.inl hacc
        · exact Or.inr ⟨hne, h', Or.inr hh', hg'⟩
      · rintro (hacc | ⟨hne, h', (rfl | hh'), hg'⟩)
        · exact Or.inl hacc
        · rw [hg] at hg'; cases hg'
        · exact Or.inr ⟨hne, h', hh', hg'⟩
    | some s =>
      simp only [hg]
      by_cases hc : s ≠ "" ∧ s ∉ acc
      · rw [if_pos hc]
        simp only [List.mem_append, List.mem_cons, List.not_mem_nil,
          or_false]
        constructor
        · rintro ((hacc | rfl) | ⟨hne, h', hh', hg'⟩)
          · exact Or.inl hacc
          · exact Or.inr ⟨hc.1, h, Or.inl rfl, hg⟩
          · exact Or.inr ⟨hne, h', Or.inr hh', hg'⟩
        · rintro (hacc | ⟨hne, h', (rfl | hh'), hg'⟩)
          · exact Or.inl (Or.inl hacc)
          · rw [hg] at hg'
            obtain rfl : s = t := by simpa using hg'
            exact Or.inl (Or.inr rfl)
          · exact Or.inr ⟨hne, h', hh', hg'⟩
      · rw [if_neg hc]
        push_neg at hc
        simp only [List.mem_cons]
        constructor
        · rintro (hacc | ⟨hne, h', hh', hg'⟩)
          · exact Or.inl hacc
          · exact Or.inr ⟨hne, h', Or.inr hh', hg'⟩
        · rintro (hacc | ⟨hne, h', (rfl | hh'), hg'⟩)
          · exact Or.inl hacc
          · rw [hg] at hg'
            obtain rfl : s = t := by simpa using hg'
            exact Or.inl (hc (by simpa using hne))
          · exact Or.inr ⟨hne, h', hh', hg'⟩

/-- C1 membership/order instance of the previous lemma, phrased on
`collect_visited`. -/
theorem collect_visited_mem (m : Map) (hexes : List Hex) (t : String) :
    t ∈ collect_visited m hexes ↔
      t ≠ "" ∧ ∃ h ∈ hexes, m.get_tree_number h = some t := by
  unfold collect_visited
  rw [collect_visited_fold_mem m hexes [] t]
  simp

/-- The `visited_trees` fold collects, in order, the tree numbers of
the first occurrences of the scan's hexes (unique identifiers, none
empty). -/
theorem collect_visited_fold_eq_filterMap (m : Map)
    (hkeysnd : keysNodup m.tree_hexagons)
    (hkeys : ∀ p ∈ m.tree_hexagons, p.1 ≠ "") :
    ∀ (hexes : List Hex) (accH : List Hex),
      hexes.foldl (fun acc h =>
          match m.get_tree_number h with
          | none => acc
          | some s => if s ≠ "" ∧ s ∉ acc then acc ++ [s] else acc)
        (accH.filterMap m.get_tree_number)
        = ((hexes.foldl (fun acc h => if h ∈ acc then acc else acc ++ [h])
            accH).filterMap m.get_tree_number) := by
  intro hexes
  induction hexes with
  | nil => intro accH; rfl
  | cons h hs ih =>
    intro accH
    rw [List.foldl_cons, List.foldl_cons]
    have hstep : (match m.get_tree_number h with
        | none => accH.filterMap m.get_tree_number
        | some s => if s ≠ "" ∧ s ∉ accH.filterMap m.get_tree_number then
            accH.filterMap m.get_tree_number ++ [s]
          else accH.filterMap m.get_tree_number)
        = (if h ∈ accH then accH else accH ++ [h]).filterMap
            m.get_tree_number := by
      cases hg : m.get_tree_number h with
      | none =>
        by_cases hmem : h ∈ accH
        · rw [if_pos hmem]
        · rw [if_neg hmem, List.filterMap_append]
          simp [hg]
      | some s =>
        dsimp only
        have hs' : s ≠ "" := hkeys (s, h) (get_tree_number_mem m h s hg)
        have hiff : s ∈ accH.filterMap m.get_tree_number ↔ h ∈ accH := by
          rw [List.mem_filterMap]
          constructor
          · rintro ⟨h', hh', hg'⟩
            obtain rfl : h' = h := get_tree_number_inj m hkeysnd h' h s hg' hg
            exact hh'
          · intro hmem
            exact ⟨h, hmem, hg⟩
        by_cases hmem : h ∈ accH
        · rw [if_pos hmem, if_neg (by simp [hiff, hmem])]
        · rw [if_neg hmem, if_pos ⟨hs', by simp [hiff, hmem]⟩,
            List.filterMap_append]
          simp [hg]
    rw [hstep]
    exact ih _

/-- Folding `add_hexagon` over a list chained onto the run's last
element appends the whole list. -/
theorem foldl_add_hexagon_of_chain :
    ∀ (l : List Hex) (r : Run) (prev : Hex),
      r.hexagons ≠ [] → r.hexagons.getLast? = some prev →
      List.Chain' Hex.adj (prev :: l) →
      ((l.foldl (fun s hx => (s.add_hexagon hx).1) r).hexagons
          = r.hexagons ++ l ∧
        (l.foldl (fun s hx => (s.add_hexagon hx).1) r).hexagons.getLast?
          = (prev :: l).getLast?) := by
  intro l
  induction l with
  | nil =>
    intro r prev hne hlast _
    simp [hlast]
  | cons a l ih =>
    intro r prev hne hlast hchain
    have ha : a ∈ prev.neighbours := (List.chain'_cons.mp hchain).1
    obtain ⟨first, rest, hcons⟩ := List.exists_cons_of_ne_nil hne
    rw [List.foldl_cons]
    have hadd := add_hexagon_of_last r a prev first rest hcons hlast ha
    have hne' : ((r.add_hexagon a).1).hexagons ≠ [] := by
      rw [hadd]; simp
    have hlast' : ((r.add_hexagon a).1).hexagons.getLast? = some a := by
      rw [hadd]
      exact List.getLast?_concat _
    have hchain' : List.Chain' Hex.adj (a :: l) := (List.chain'_cons.mp hchain).2
    obtain ⟨ih1, ih2⟩ := ih ((r.add_hexagon a).1) a hne' hlast' hchain'
    constructor
    · rw [ih1, hadd, hcons]
      simp
    · rw [ih2]
      exact List.getLast?_cons_cons.symm

/-- The leg loop of `create_optimal_run`: when it succeeds from a
nonempty optimal run ending at the current position, it has appended,
per resolved waypoint in order, every hex of the pathfinder's path
except its first element, and ends at the last waypoint's hex. -/
theorem optimal_go_spec (m : Map) (fp : Hex → Hex → Option (List Hex))
    (hfp : ∀ a b p, fp a b = some p → p.head? = some a ∧
      p.getLast? = some b ∧ List.Chain' Hex.adj p) :
    ∀ (ts : List String) (pos : Hex) (orun : Run) (st2 : Hex × Run),
      orun.hexagons ≠ [] → orun.hexagons.getLast? = some pos →
      optimal_run_go m fp (pos, orun) ts = some st2 →
      (st2.2.hexagons
          = orun.hexagons
            ++ (legPaths fp pos
                (ts.filterMap (lookupHex m.tree_hexagons))).flatten ∧
        st2.2.hexagons.getLast? = some st2.1) := by
  intro ts
  induction ts with
  | nil =>
    intro pos orun st2 hne hlast hgo
    obtain rfl : (pos, orun) = st2 := by simpa [optimal_run_go] using hgo
    simp only [List.filterMap_nil, legPaths, List.flatten_nil,
      List.append_nil]
    exact ⟨trivial, hlast⟩
  | cons t ts ih =>
    intro pos orun st2 hne hlast hgo
    cases hlk : lookupHex m.tree_hexagons t with
    | none =>
      rw [List.filterMap_cons_none hlk]
      have hstep : optimal_run_step m fp (pos, orun) t = some (pos, orun) := by
        unfold optimal_run_step
        rw [hlk]
      rw [optimal_run_go, hstep] at hgo
      exact ih pos orun st2 hne hlast hgo
    | some target =>
      rw [List.filterMap_cons_some hlk]
      cases hfind : fp pos target with
      | none =>
        have hstep : optimal_run_step m fp (pos, orun) t = none := by
          unfold optimal_run_step
          rw [hlk]
          dsimp only
          rw [hfind]
        rw [optimal_run_go, hstep] at hgo
        cases hgo
      | some path =>
        obtain ⟨hhead, hlastp, hchain⟩ := hfp pos target path hfind
        obtain ⟨ptail, hp⟩ : ∃ tl, path = pos :: tl := by
          cases hpc : path with
          | nil => rw [hpc] at hhead; cases hhead
          | cons a tl =>
            rw [hpc] at hhead
            obtain rfl : a = pos := by simpa using hhead
            exact ⟨tl, rfl⟩
        subst hp
        have hchain2 : List.Chain' Hex.adj (pos :: ptail) := hchain
        obtain ⟨h81, h82⟩ :=
          foldl_add_hexagon_of_chain ptail orun pos hne hlast hchain2
        have hstep : optimal_run_step m fp (pos, orun) t
            = some (target,
                ptail.foldl (fun s hx => (s.add_hexagon hx).1) orun) := by
          unfold optimal_run_step
          rw [hlk]
          dsimp only
          rw [hfind]
          rfl
        rw [optimal_run_go, hstep] at hgo
        have hne2 : (ptail.foldl (fun s hx => (s.add_hexagon hx).1)
            orun).hexagons ≠ [] := by
          rw [h81]
          simp [hne]
        have hlast3 : (ptail.foldl (fun s hx => (s.add_hexagon hx).1)
            orun).hexagons.getLast? = some target := by
          rw [h82]
          exact hlastp
        obtain ⟨ihl, ihr⟩ := ih target _ st2 hne2 hlast3 hgo
        refine ⟨?_, ihr⟩
        rw [ihl, h81, legPaths, hfind]
        simp [List.append_assoc]

/-- `adjPathfinder` honours the §4.4 pathfinder contract. -/
theorem adjPathfinder_spec : ∀ a b p, adjPathfinder a b = some p →
    p.head? = some a ∧ p.getLast? = some b ∧ List.Chain' Hex.adj p := by
  intro a b p hp
  unfold adjPathfinder at hp
  split_ifs at hp with h1 h2
  · obtain rfl : [a] = p := by simpa using hp
    subst h1
    exact ⟨rfl, rfl, List.chain'_singleton a⟩
  · obtain rfl : [a, b] = p := by simpa using hp
    exact ⟨rfl, rfl, List.chain'_pair.mpr h2⟩

/-- C1 (amended): for a waypoint index with distinct, nonempty
identifiers no two of which resolve to the same hex, and a pathfinder
meeting the §4.4 contract, a successful `create_optimal_run` returns
a run starting at the recorded run's first hex followed, leg by leg,
by every hex but the first of each returned path; the visited
waypoints are exactly the identifiers whose resolved hex occurs in
the recorded run, ordered by the first occurrence of their hex, and
the collection does not change under reordering of the index. -/
theorem create_optimal_run_spec (m : Map)
    (fp : Hex → Hex → Option (List Hex)) (run : Run) (h₀ : Hex)
    (rest : List Hex) (orun : Run)
    (hkeysnd : keysNodup m.tree_hexagons)
    (hinj : valuesInjective m.tree_hexagons)
    (hkeys : ∀ p ∈ m.tree_hexagons, p.1 ≠ "")
    (hfp : ∀ a b p, fp a b = some p → p.head? = some a ∧
      p.getLast? = some b ∧ List.Chain' Hex.adj p)
    (hrun : run.hexagons = h₀ :: rest)
    (hsucc : create_optimal_run m fp run = some orun) :
    (orun.hexagons
        = h₀ :: (legPaths fp h₀
            ((collect_visited m run.hexagons).filterMap
              (lookupHex m.tree_hexagons))).flatten) ∧
    (∀ t, t ∈ collect_visited m run.hexagons ↔
        ∃ h, (t, h) ∈ m.tree_hexagons ∧ h ∈ run.hexagons) ∧
    (collect_visited m run.hexagons
        = (firstOccurrences run.hexagons).filterMap m.get_tree_number) ∧
    (∀ tree', m.tree_hexagons.Perm tree' →
        collect_visited { m with tree_hexagons := tree' } run.hexagons
          = collect_visited m run.hexagons) := by
  refine ⟨?_, ?_, ?_, ?_⟩
  · unfold create_optimal_run at hsucc
    split at hsucc
    · cases hsucc
    · rename_i h₀' rest' hcons'
      rw [hrun] at hcons'
      obtain ⟨rfl, rfl⟩ : h₀ = h₀' ∧ rest = rest' := by simpa using hcons'
      have hinit : (Run.add_hexagon { run_id := run.run_id } h₀).1.hexagons
          = [h₀] := by
        rw [add_hexagon_of_nil { run_id := run.run_id } h₀ rfl]
      rw [Option.map_eq_some'] at hsucc
      obtain ⟨st2, hgo, hst⟩ := hsucc
      obtain ⟨hl, -⟩ := optimal_go_spec m fp hfp
        (collect_visited m run.hexagons) h₀
        ((Run.add_hexagon { run_id := run.run_id } h₀).1) st2
        (by rw [hinit]; simp) (by rw [hinit]; rfl) hgo
      rw [← hst]
      rw [hl, hinit]
      rfl
  · intro t
    rw [collect_visited_mem]
    constructor
    · rintro ⟨-, h, hh, hg⟩
      exact ⟨h, get_tree_number_mem m h t hg, hh⟩
    · rintro ⟨h, hmem, hh⟩
      exact ⟨hkeys (t, h) hmem, h, hh,
        get_tree_number_eq_some m t h hinj hmem⟩
  · have := collect_visited_fold_eq_filterMap m hkeysnd hkeys
      run.hexagons []
    simpa [collect_visited, firstOccurrences] using this
  · intro tree' hperm
    exact collect_visited_congr _ m run.hexagons
      (fun h => get_tree_number_perm m tree' hperm hinj h)

/-- C1 witness: one waypoint `"T1"` on hex `(2,0)`, recorded run
`[(0,0), (2,0)]`, and the adjacency pathfinder: the optimal run is
`[(0,0), (2,0)]`, the collection is exactly `"T1"`, it keeps
first-occurrence order and survives reordering the index. -/
theorem create_optimal_run_spec_witness :
    (({ run_id := 0, name := "", hexagons := [⟨0, 0⟩, ⟨2, 0⟩] } : Run).hexagons
        = ⟨0, 0⟩ :: (legPaths adjPathfinder ⟨0, 0⟩
            ((collect_visited
                { tree_hexagons := [("T1", ⟨2, 0⟩)] }
                ({ hexagons := [⟨0, 0⟩, ⟨2, 0⟩] } : Run).hexagons).filterMap
              (lookupHex
                (Map.tree_hexagons
                  { tree_hexagons := [("T1", ⟨2, 0⟩)] })))).flatten) ∧
    (∀ t, t ∈ collect_visited { tree_hexagons := [("T1", ⟨2, 0⟩)] }
          ({ hexagons := [⟨0, 0⟩, ⟨2, 0⟩] } : Run).hexagons ↔
        ∃ h, (t, h) ∈ Map.tree_hexagons
            { tree_hexagons := [("T1", ⟨2, 0⟩)] } ∧
          h ∈ ({ hexagons := [⟨0, 0⟩, ⟨2, 0⟩] } : Run).hexagons) ∧
    (collect_visited { tree_hexagons := [("T1", ⟨2, 0⟩)] }
          ({ hexagons := [⟨0, 0⟩, ⟨2, 0⟩] } : Run).hexagons
        = (firstOccurrences
            ({ hexagons := [⟨0, 0⟩, ⟨2, 0⟩] } : Run).hexagons).filterMap
          (Map.get_tree_number { tree_hexagons := [("T1", ⟨2, 0⟩)] })) ∧
    (∀ tree',
        (Map.tree_hexagons { tree_hexagons := [("T1", ⟨2, 0⟩)] }).Perm
          tree' →
        collect_visited
            { ({ tree_hexagons := [("T1", ⟨2, 0⟩)] } : Map) with
              tree_hexagons := tree' }
            ({ hexagons := [⟨0, 0⟩, ⟨2, 0⟩] } : Run).hexagons
          = collect_visited { tree_hexagons := [("T1", ⟨2, 0⟩)] }
            ({ hexagons := [⟨0, 0⟩, ⟨2, 0⟩] } : Run).hexagons) :=
  create_optimal_run_spec { tree_hexagons := [("T1", ⟨2, 0⟩)] }
    adjPathfinder { hexagons := [⟨0, 0⟩, ⟨2, 0⟩] } ⟨0, 0⟩ [⟨2, 0⟩]
    { run_id := 0, name := "", hexagons := [⟨0, 0⟩, ⟨2, 0⟩] }
    (by decide) (by decide) (by decide) adjPathfinder_spec rfl (by decide)

/-- C1 counterexample: with two identifiers `"A"` and `"B"` both
resolving to hex `(0,0)`, a run through `(0,0)` collects only `"A"`
although `"B"`'s resolved hex occurs in the run, and reversing the
index changes the collection to `"B"` — the visited waypoints are
neither all those whose hex occurs nor independent of the index
order. -/
theorem collect_visited_collision_cex :
    collect_visited { tree_hexagons := [("A", ⟨0, 0⟩), ("B", ⟨0, 0⟩)] }
        [⟨0, 0⟩] = ["A"] ∧
    ("B", (⟨0, 0⟩ : Hex)) ∈
      Map.tree_hexagons
        { tree_hexagons := [("A", ⟨0, 0⟩), ("B", ⟨0, 0⟩)] } ∧
    (⟨0, 0⟩ : Hex) ∈ [(⟨0, 0⟩ : Hex)] ∧
    "B" ∉ collect_visited
        { tree_hexagons := [("A", ⟨0, 0⟩), ("B", ⟨0, 0⟩)] } [⟨0, 0⟩] ∧
    collect_visited { tree_hexagons := [("B", ⟨0, 0⟩), ("A", ⟨0, 0⟩)] }
        [⟨0, 0⟩] = ["B"] := by
  refine ⟨by decide, by decide, by decide, by decide, by decide⟩

end HexModel
